import Mathlib

/-!
Shallow embedding of the jsdc-cfp-server activity and auth logic.

Source files embedded here:
- `ActivityService` (create / findOneBySlug / update and its private
  validation helpers `validateDates`, `checkSlugExists`,
  `validateContentLanguages`, `applySupportedLanguageFilter`);
- `PermissionGuard.canActivate`;
- `AuthService` (`getUserPermissions`, `loginWithGithub`, `devLogin`).

Modelling conventions:
- JavaScript `Date` values are modelled as `Int` timestamps.  A `Date`
  object is always truthy in JS, so an optional date is `Option Int` and
  truthiness coincides with `isSome`.
- Nest exceptions are modelled by the `DomainError` sum type; a method
  that can throw returns `Except DomainError _`.
- The relational store is a record of lists; `findUnique` becomes
  `List.find?` on the unique key.
- `withId` (id generation) is modelled by passing the fresh id
  explicitly as an argument.
-/

namespace JsdcCfp

/-- Error taxonomy: `BadRequestException`, `ConflictException`,
`NotFoundException`, `UnauthorizedException`, and a plain JS `Error`. -/
inductive DomainError where
  | badRequest (msg : String)
  | conflict (msg : String)
  | notFound (msg : String)
  | unauthorized (msg : String)
  | internalError (msg : String)
  deriving Repr, DecidableEq

/-- `ActivityContentDto` (`lang`, `title`, required; `description`
optional).  The DTO layer lowercases `lang` before the service sees it. -/
structure ActivityContentDto where
  lang : String
  title : String
  description : Option String
  deriving Repr, DecidableEq

/-- `CreateActivityDto` after the declarative transform layer: `slug` and
`supportedLanguages` arrive lowercased, dates are parsed. -/
structure CreateActivityDto where
  name : String
  slug : String
  startAt : Int
  endAt : Int
  supportedLanguages : List String
  closedAt : Option Int
  contents : List ActivityContentDto
  deriving Repr, DecidableEq

/-- A stored `Activity` row. -/
structure Activity where
  id : String
  name : String
  slug : String
  startAt : Int
  endAt : Int
  closedAt : Option Int
  supportedLanguages : List String
  deriving Repr, DecidableEq

/-- A stored `ActivityContent` row; the row id is not modelled because no
logic reads it.  `(activityId, lang)` is the compound unique key. -/
structure ContentRow where
  activityId : String
  lang : String
  title : String
  description : Option String
  deriving Repr, DecidableEq

/-- The relational store: `activities` plus their content rows. -/
structure Store where
  activities : List Activity
  contents : List ContentRow
  deriving Repr, DecidableEq

/-- `ActivityService.validateDates`: `endAt <= startAt` is rejected, then
a present `closedAt` with `closedAt >= startAt` is rejected.  (A JS
`Date` object is always truthy, so `closedAt &&` is presence.) -/
def validateDates (startAt endAt : Int) (closedAt : Option Int) :
    Except DomainError Unit :=
  if endAt ≤ startAt then
    .error (.badRequest "End date must be after start date")
  else
    match closedAt with
    | some c =>
        if startAt ≤ c then
          .error (.badRequest "Closed date must be before start date")
        else .ok ()
    | none => .ok ()

/-- `ActivityService.checkSlugExists`: conflict when some stored activity
already has the slug. -/
def checkSlugExists (slug : String) (store : Store) :
    Except DomainError Unit :=
  if store.activities.any (fun a => a.slug == slug) then
    .error (.conflict
      ("Activity with slug \"" ++ slug ++ "\" already exists"))
  else .ok ()

/-- The `unsupportedLangs` local of `validateContentLanguages`: content
langs that are not members of `supportedLanguages`. -/
def unsupportedLangs (contentLangs supportedLanguages : List String) :
    List String :=
  contentLangs.filter (fun lang => !supportedLanguages.contains lang)

/-- The `duplicateLangs` local of `validateContentLanguages`: every
occurrence of a lang whose first index differs from its own index. -/
def duplicateLangs (contentLangs : List String) : List String :=
  (contentLangs.enum.filter
    (fun p => contentLangs.indexOf p.2 ≠ p.1)).map (fun p => p.2)

/-- `ActivityService.validateContentLanguages`: reject when some content
lang is unsupported (naming them), then when some lang repeats (naming
the repeats). -/
def validateContentLanguages (contents : List ActivityContentDto)
    (supportedLanguages : List String) : Except DomainError Unit :=
  let contentLangs := contents.map (fun c => c.lang)
  if unsupportedLangs contentLangs supportedLanguages ≠ [] then
    .error (.badRequest
      ("Contents contain unsupported languages: " ++
        String.intercalate ", "
          (unsupportedLangs contentLangs supportedLanguages)))
  else if duplicateLangs contentLangs ≠ [] then
    .error (.badRequest
      ("Duplicate languages in contents: " ++
        String.intercalate ", " (duplicateLangs contentLangs)))
  else .ok ()

/-- `ActivityService.create`: validate dates, check slug uniqueness,
validate content languages, then do the single insert.  The store is
returned unchanged on failure (`newId` stands for the generated id; in
`closedAt: dto.closedAt || null` a `Date` is always truthy, so the
stored value is just the optional input). -/
def create (dto : CreateActivityDto) (newId : String) (store : Store) :
    Store × Except DomainError Activity :=
  match validateDates dto.startAt dto.endAt dto.closedAt with
  | .error e => (store, .error e)
  | .ok () =>
  match checkSlugExists dto.slug store with
  | .error e => (store, .error e)
  | .ok () =>
  match validateContentLanguages dto.contents dto.supportedLanguages with
  | .error e => (store, .error e)
  | .ok () =>
    let a : Activity :=
      { id := newId, name := dto.name, slug := dto.slug,
        startAt := dto.startAt, endAt := dto.endAt,
        closedAt := dto.closedAt,
        supportedLanguages := dto.supportedLanguages }
    ({ activities := store.activities ++ [a],
       contents := store.contents ++ dto.contents.map (fun c =>
         { activityId := newId, lang := c.lang, title := c.title,
           description := c.description }) },
     .ok a)

/-- The public content projection selected by `findOneBySlug`. -/
structure PublicContent where
  lang : String
  title : String
  description : Option String
  deriving Repr, DecidableEq

/-- The public activity projection selected by `findOneBySlug`. -/
structure PublicActivity where
  slug : String
  startAt : Int
  endAt : Int
  closedAt : Option Int
  supportedLanguages : List String
  contents : List PublicContent
  deriving Repr, DecidableEq

/-- `ActivityService.applySupportedLanguageFilter`: keep only contents
whose language is in the activity's `supportedLanguages`.  (The TS
null/missing-contents guards do not arise here: the projection always
carries a content list.) -/
def applySupportedLanguageFilter (a : PublicActivity) : PublicActivity :=
  { a with contents := a.contents.filter (fun c =>
      a.supportedLanguages.contains c.lang) }

/-- Projection of a stored content row into the public select. -/
def toPublicContent (r : ContentRow) : PublicContent :=
  { lang := r.lang, title := r.title, description := r.description }

/-- `ActivityService.findOneBySlug`: `findUnique` on the slug, a
store-level `where` filter on the lowercased requested lang when one is
given, then `applySupportedLanguageFilter`. -/
def findOneBySlug (store : Store) (slug : String) (lang : Option String) :
    Except DomainError PublicActivity :=
  match store.activities.find? (fun a => a.slug == slug) with
  | none => .error (.notFound "Activity not found")
  | some a =>
    let rows : List ContentRow :=
      store.contents.filter (fun r => r.activityId == a.id)
    let rows : List ContentRow := match lang with
      | some l => rows.filter (fun r => r.lang == l.toLower)
      | none => rows
    .ok (applySupportedLanguageFilter
      { slug := a.slug, startAt := a.startAt, endAt := a.endAt,
        closedAt := a.closedAt,
        supportedLanguages := a.supportedLanguages,
        contents := rows.map toPublicContent })

/-- `UpdateActivityDto = PartialType(CreateActivityDto)`: every field
optional.  For `closedAt`, `none` is JS `undefined` (field absent) and
`some none` is an explicit `null` (clear the date); the DTO layer
guarantees a supplied `name`/`slug` is a non-empty string, so the JS
truthiness tests on those fields coincide with presence. -/
structure UpdateActivityDto where
  name : Option String
  slug : Option String
  startAt : Option Int
  endAt : Option Int
  supportedLanguages : Option (List String)
  closedAt : Option (Option Int)
  contents : Option (List ActivityContentDto)
  deriving Repr, DecidableEq

/-- The merged `closedAt` of `ActivityService.update`:
`dto.closedAt !== undefined ? dto.closedAt : activity.closedAt`.  The
same expression supplies both the date re-validation and the written
field. -/
def mergedClosedAt (dto : UpdateActivityDto) (a : Activity) : Option Int :=
  match dto.closedAt with
  | some v => v
  | none => a.closedAt

/-- The `data` object of the `tx.activity.update` call: each field is
overwritten exactly when supplied (spread of conditional singletons). -/
def applyActivityUpdate (a : Activity) (dto : UpdateActivityDto) :
    Activity :=
  { a with
    name := dto.name.getD a.name
    slug := dto.slug.getD a.slug
    startAt := dto.startAt.getD a.startAt
    endAt := dto.endAt.getD a.endAt
    closedAt := mergedClosedAt dto a
    supportedLanguages := dto.supportedLanguages.getD a.supportedLanguages }

/-- One `tx.activityContent.upsert` keyed on `(activityId, lang)`:
update `title`/`description` when the row exists, insert otherwise.
A supplied `undefined` (`none`) description is skipped by the store's
update (the field keeps its old value) and stored as null by the
insert. -/
def upsertContent (aid : String) (rows : List ContentRow)
    (c : ActivityContentDto) : List ContentRow :=
  if rows.any (fun r => r.activityId == aid && r.lang == c.lang) then
    rows.map (fun r =>
      if r.activityId == aid && r.lang == c.lang then
        { r with title := c.title,
                 description := match c.description with
                   | some d => some d
                   | none => r.description }
      else r)
  else
    rows ++ [{ activityId := aid, lang := c.lang, title := c.title,
               description := c.description }]

/-- The batch of per-content upserts run inside the update transaction. -/
def applyContentUpserts (aid : String) (rows : List ContentRow)
    (contents : List ActivityContentDto) : List ContentRow :=
  contents.foldl (fun rs c => upsertContent aid rs c) rows

/-- `ActivityService.update`: load the activity (not-found otherwise),
re-validate dates when any date field is supplied (a supplied `Date` is
truthy; `closedAt` is compared against `undefined`), re-check a changed
slug, re-validate content languages against the merged supported set,
then write the field update and the content upserts transactionally. -/
def update (store : Store) (id : String) (dto : UpdateActivityDto) :
    Except DomainError Store :=
  match store.activities.find? (fun a => a.id == id) with
  | none => .error (.notFound "Activity not found")
  | some a =>
  match (if dto.startAt.isSome || dto.endAt.isSome || dto.closedAt.isSome
         then
           validateDates (dto.startAt.getD a.startAt)
             (dto.endAt.getD a.endAt) (mergedClosedAt dto a)
         else .ok ()) with
  | .error e => .error e
  | .ok () =>
  match (match dto.slug with
         | some s => if s ≠ a.slug then checkSlugExists s store else .ok ()
         | none => .ok ()) with
  | .error e => .error e
  | .ok () =>
  match (match dto.contents with
         | some cts =>
             validateContentLanguages cts
               (dto.supportedLanguages.getD a.supportedLanguages)
         | none => .ok ()) with
  | .error e => .error e
  | .ok () =>
    .ok { activities := store.activities.map (fun x =>
            if x.id == id then applyActivityUpdate a dto else x),
          contents := match dto.contents with
            | some cts => applyContentUpserts id store.contents cts
            | none => store.contents }

/-- The `AuthUser` attached to a request by the JWT strategy. -/
structure AuthUser where
  id : String
  permissions : List String
  tokenVersion : Int
  deriving Repr, DecidableEq

/-- `PermissionGuard.canActivate`: `requiredPermissions` is `none` when
the route metadata declares no list (the reflector returns `undefined`;
an empty declared list is a truthy array in JS and so falls through to
the user check), `user` is `none` when no caller was authenticated. -/
def canActivate (requiredPermissions : Option (List String))
    (user : Option AuthUser) : Bool :=
  match requiredPermissions with
  | none => true
  | some req =>
    match user with
    | none => false
    | some u => req.all (fun p => u.permissions.contains p)

/-- A stored `Member` row (profile fields not read by the embedded logic
are omitted). -/
structure Member where
  id : String
  email : String
  displayName : String
  deriving Repr, DecidableEq

/-- A stored `MemberProvider` row. -/
structure MemberProvider where
  memberId : String
  provider : String
  providerUserId : String
  deriving Repr, DecidableEq

/-- The identity tables: members, their provider links, role membership
`(roleId, memberId)` and role grants `(roleId, permissionCode)`. -/
structure MemberDb where
  members : List Member
  providers : List MemberProvider
  roleMembers : List (String × String)
  rolePermissions : List (String × String)
  deriving Repr, DecidableEq

/-- A JS `Set<string>` insertion: add the element unless present. -/
def insertUnique (acc : List String) (c : String) : List String :=
  if acc.contains c then acc else acc ++ [c]

/-- `Array.from(new Set(...))` over a code list: insertion-ordered
deduplication. -/
def setOfList (codes : List String) : List String :=
  codes.foldl insertUnique []

/-- The role-permission rows returned by the `findMany` of
`AuthService.getUserPermissions`: grants of roles the member belongs
to. -/
def rolePermissionRowsFor (db : MemberDb) (memberId : String) :
    List (String × String) :=
  db.rolePermissions.filter (fun rp =>
    db.roleMembers.any (fun rm => rm.1 == rp.1 && rm.2 == memberId))

/-- `AuthService.getUserPermissions`: collect the permission codes of
every role the member belongs to into a `Set`, then convert to a list. -/
def getUserPermissions (db : MemberDb) (memberId : String) :
    List String :=
  setOfList ((rolePermissionRowsFor db memberId).map (fun rp => rp.2))

/-- The payload signed into the session token. -/
structure JwtPayload where
  sub : String
  email : String
  permissions : List String
  deriving Repr, DecidableEq

/-- `AuthService.devLogin`: refuse when `NODE_ENV === "production"`,
else find-or-create the member by email (`newId` stands for the
generated id, `nowStamp` for `Date.now()`), compute permissions and
issue the token payload.  The store is returned unchanged on refusal. -/
def devLogin (nodeEnv : String) (newId nowStamp : String)
    (db : MemberDb) (email : String) :
    MemberDb × Except DomainError JwtPayload :=
  if nodeEnv == "production" then
    (db, .error (.internalError
      "This endpoint is only available in development"))
  else
    match db.members.find? (fun m => m.email == email) with
    | some m =>
        (db, .ok { sub := m.id, email := m.email,
                   permissions := getUserPermissions db m.id })
    | none =>
        let m : Member :=
          { id := newId, email := email,
            displayName := ((email.splitOn "@").headD "") }
        let db' : MemberDb :=
          { db with
            members := db.members ++ [m],
            providers := db.providers ++
              [{ memberId := newId, provider := "dev",
                 providerUserId := "dev_" ++ nowStamp }] }
        (db', .ok { sub := m.id, email := m.email,
                    permissions := getUserPermissions db' m.id })

/-- A thrown JS value in the login flow: a Nest
`UnauthorizedException` or any other `Error` (by its message). -/
inductive JsError where
  | unauthorized (msg : String)
  | generic (msg : String)
  deriving Repr, DecidableEq

/-- The GitHub profile fields the flow reads (`null` becomes `none`;
GitHub reports an absent public email as `null`, never `""`, so the
`||` fallback is presence). -/
structure GithubProfile where
  id : Nat
  login : String
  name : Option String
  email : Option String
  avatar_url : String
  company : Option String
  bio : Option String
  html_url : String
  location : Option String
  deriving Repr, DecidableEq

/-- One row of the `user/emails` response. -/
structure GithubEmail where
  email : String
  primary : Bool
  deriving Repr, DecidableEq

/-- One row of the `user/social_accounts` response. -/
structure GithubSocial where
  provider : String
  url : String
  deriving Repr, DecidableEq

/-- The outcomes of the external calls made by `loginWithGithub`: the
authorization-code exchange and the three concurrent `fetchGithub`
calls, each of which either yields its JSON or throws. -/
structure GithubEnv where
  tokenExchange : Except JsError String
  userFetch : Except JsError GithubProfile
  emailsFetch : Except JsError (List GithubEmail)
  socialFetch : Except JsError (List GithubSocial)
  deriving Repr

/-- The `try` body of `AuthService.loginWithGithub`: exchange the code,
fetch profile/emails/social accounts, derive the effective email
(profile email, else first primary email; missing ⇒ throw
`UnauthorizedException`), find-or-create the member (adding a github
provider link when absent), then build the signed payload. -/
def loginWithGithubBody (env : GithubEnv) (newId : String)
    (db : MemberDb) : Except JsError (MemberDb × JwtPayload) := do
  let _accessToken ← env.tokenExchange
  let githubUser ← env.userFetch
  let githubEmails ← env.emailsFetch
  let _socialAccounts ← env.socialFetch
  let email? : Option String :=
    match githubUser.email with
    | some e => some e
    | none => (githubEmails.find? (fun e => e.primary)).map
        (fun e => e.email)
  match email? with
  | none =>
      .error (.unauthorized
        "Unable to obtain a valid email address from GitHub")
  | some email =>
    let dbAndUser : MemberDb × Member :=
      match db.members.find? (fun m => m.email == email) with
      | some user =>
          if user.id ∈ (db.providers.filter
              (fun p => p.provider == "github")).map
                (fun p => p.memberId) then
            (db, user)
          else
            ({ db with providers := db.providers ++
                [{ memberId := user.id, provider := "github",
                   providerUserId := toString githubUser.id }] },
             user)
      | none =>
          let user : Member :=
            { id := newId, email := email,
              displayName := githubUser.name.getD githubUser.login }
          ({ db with
             members := db.members ++ [user],
             providers := db.providers ++
               [{ memberId := newId, provider := "github",
                  providerUserId := toString githubUser.id }] },
           user)
    let user := dbAndUser.2
    .ok (dbAndUser.1,
      { sub := user.id, email := user.email,
        permissions := getUserPermissions dbAndUser.1 user.id })

/-- `AuthService.loginWithGithub`: run the body; the `catch` re-throws
an `UnauthorizedException` unchanged and wraps any other failure into
`UnauthorizedException("GitHub Authentication Failed: " + message)`. -/
def loginWithGithub (env : GithubEnv) (newId : String) (db : MemberDb) :
    Except JsError (MemberDb × JwtPayload) :=
  match loginWithGithubBody env newId db with
  | .ok r => .ok r
  | .error (.unauthorized m) => .error (.unauthorized m)
  | .error (.generic m) =>
      .error (.unauthorized ("GitHub Authentication Failed: " ++ m))

/-! ## General lemmas about the embedded operations -/

theorem mem_insertUnique (acc : List String) (a c : String) :
    c ∈ insertUnique acc a ↔ c ∈ acc ∨ c = a := by
  unfold insertUnique
  split
  · next h =>
    replace h : a ∈ acc := by simpa using h
    constructor
    · exact Or.inl
    · rintro (hc | rfl)
      · exact hc
      · exact h
  · simp

theorem nodup_insertUnique (acc : List String) (a : String)
    (h : acc.Nodup) : (insertUnique acc a).Nodup := by
  unfold insertUnique
  split
  · exact h
  · next hc =>
    replace hc : a ∉ acc := by simpa using hc
    simpa [List.nodup_append] using ⟨h, hc⟩

theorem nodup_foldl_insertUnique (codes acc : List String)
    (h : acc.Nodup) : (codes.foldl insertUnique acc).Nodup := by
  induction codes generalizing acc with
  | nil => exact h
  | cons a t ih => exact ih _ (nodup_insertUnique acc a h)

theorem mem_foldl_insertUnique (codes acc : List String) (c : String) :
    c ∈ codes.foldl insertUnique acc ↔ c ∈ acc ∨ c ∈ codes := by
  induction codes generalizing acc with
  | nil => simp
  | cons a t ih =>
    simp only [List.foldl_cons, ih, mem_insertUnique, List.mem_cons]
    tauto

theorem setOfList_nodup (codes : List String) : (setOfList codes).Nodup :=
  nodup_foldl_insertUnique codes [] List.nodup_nil

theorem mem_setOfList (codes : List String) (c : String) :
    c ∈ setOfList codes ↔ c ∈ codes := by
  simp [setOfList, mem_foldl_insertUnique]

/-! ## Authorization gate (claim C6) -/

/-- Claim C6: the permission guard allows a route with no declared
required-permission list; denies a declared requirement with no
authenticated caller; and otherwise allows exactly when every required
permission is present in the caller's token-embedded permission list. -/
theorem canActivate_spec (req : List String) (anyUser : Option AuthUser)
    (u : AuthUser) :
    canActivate none anyUser = true ∧
    canActivate (some req) none = false ∧
    (canActivate (some req) (some u) = true ↔
      ∀ p ∈ req, p ∈ u.permissions) := by
  refine ⟨rfl, rfl, ?_⟩
  simp [canActivate]

/-- Witness for C6 at concrete inputs. -/
theorem canActivate_spec_witness :
    canActivate (some ["activity:manage"])
      (some { id := "u1", permissions := ["activity:manage", "other"],
              tokenVersion := 1 }) = true :=
  (canActivate_spec ["activity:manage"] none
    { id := "u1", permissions := ["activity:manage", "other"],
      tokenVersion := 1 }).2.2.mpr (by decide)

/-! ## devLogin execution-mode gate (claim C7) -/

/-- Claim C7 counterexample: in the execution mode `"test"`, which is
not a development mode, `devLogin` proceeds (it looks up or creates the
member and issues a token) instead of refusing. -/
theorem devLogin_nonDevelopment_counterexample :
    ((devLogin "test" "m1" "0" ⟨[], [], [], []⟩ "a@b.c").2.isOk = true)
      ∧ "test" ≠ "development" := by
  constructor
  · rfl
  · decide

/-- Claim C7 (amended): `devLogin` refuses to run — returning the
development-only error and leaving the member store untouched — exactly
when the execution mode is `"production"`; in every other mode
(development or not) it proceeds and issues a token. -/
theorem devLogin_production_gate (nodeEnv newId nowStamp : String)
    (db : MemberDb) (email : String) :
    ((devLogin nodeEnv newId nowStamp db email).2.isOk = true ↔
      nodeEnv ≠ "production") ∧
    (nodeEnv = "production" →
      devLogin nodeEnv newId nowStamp db email =
        (db, .error (.internalError
          "This endpoint is only available in development"))) := by
  constructor
  · unfold devLogin
    by_cases h : nodeEnv = "production"
    · simp [h, Except.isOk, Except.toBool]
    · have hb : (nodeEnv == "production") = false := by
        simpa using h
      simp only [hb, Bool.false_eq_true, if_false]
      cases hf : db.members.find? (fun m => m.email == email) with
      | none => simpa [Except.isOk, Except.toBool] using h
      | some m => simpa [Except.isOk, Except.toBool] using h
  · intro h
    simp [devLogin, h]

/-- Witness for the amended C7 at a concrete input. -/
theorem devLogin_production_gate_witness :
    devLogin "production" "m1" "0" ⟨[], [], [], []⟩ "a@b.c" =
      (⟨[], [], [], []⟩, .error (.internalError
        "This endpoint is only available in development")) :=
  (devLogin_production_gate "production" "m1" "0" ⟨[], [], [], []⟩
    "a@b.c").2 rfl

/-! ## Effective permission list (claim C10) -/

/-- Claim C10: the permission list computed for token issuance has no
duplicate codes — building the union through a set deduplicates — and
it contains exactly the codes granted by the member's roles. -/
theorem getUserPermissions_nodup (db : MemberDb) (memberId : String) :
    (getUserPermissions db memberId).Nodup ∧
    ∀ c, c ∈ getUserPermissions db memberId ↔
      c ∈ (rolePermissionRowsFor db memberId).map (fun rp => rp.2) := by
  constructor
  · exact setOfList_nodup _
  · intro c
    exact mem_setOfList _ c

/-- Witness for C10 at a concrete member database. -/
theorem getUserPermissions_nodup_witness :
    "p" ∈ getUserPermissions
      ⟨[], [], [("r1", "m"), ("r2", "m")],
        [("r1", "p"), ("r2", "p"), ("r1", "q")]⟩ "m" :=
  ((getUserPermissions_nodup
      ⟨[], [], [("r1", "m"), ("r2", "m")],
        [("r1", "p"), ("r2", "p"), ("r1", "q")]⟩ "m").2 "p").mpr
    (by decide)

/-! ## GitHub login error normalization (claim C8) -/

/-- Claim C8: every failure of the GitHub login flow surfaces as an
authentication failure (`UnauthorizedException`); a failure already
classified as an authentication failure is re-thrown unchanged, and any
other error is wrapped with the `GitHub Authentication Failed` prefix. -/
theorem loginWithGithub_error_normalization (env : GithubEnv)
    (newId : String) (db : MemberDb) :
    (∀ e, loginWithGithub env newId db = .error e →
      ∃ m, e = .unauthorized m) ∧
    (∀ m, loginWithGithubBody env newId db = .error (.unauthorized m) →
      loginWithGithub env newId db = .error (.unauthorized m)) ∧
    (∀ m, loginWithGithubBody env newId db = .error (.generic m) →
      loginWithGithub env newId db =
        .error (.unauthorized ("GitHub Authentication Failed: " ++ m))) := by
  refine ⟨?_, ?_, ?_⟩
  · intro e he
    unfold loginWithGithub at he
    cases hb : loginWithGithubBody env newId db with
    | ok r => rw [hb] at he; cases he
    | error e₀ =>
      cases e₀ with
      | unauthorized m => rw [hb] at he; cases he; exact ⟨m, rfl⟩
      | generic m =>
        rw [hb] at he; cases he
        exact ⟨"GitHub Authentication Failed: " ++ m, rfl⟩
  · intro m hb
    unfold loginWithGithub
    rw [hb]
  · intro m hb
    unfold loginWithGithub
    rw [hb]

/-- The GitHub environment used by the C8 witness: the authorization
code exchange fails with a plain error. -/
def failingGithubEnv : GithubEnv :=
  { tokenExchange := .error (.generic "network down"),
    userFetch := .error (.generic "unreached"),
    emailsFetch := .ok [],
    socialFetch := .ok [] }

/-- Witness for C8 at a concrete failing environment. -/
theorem loginWithGithub_error_normalization_witness :
    loginWithGithub failingGithubEnv "m1" ⟨[], [], [], []⟩ =
      .error (.unauthorized
        ("GitHub Authentication Failed: " ++ "network down")) :=
  (loginWithGithub_error_normalization failingGithubEnv "m1"
    ⟨[], [], [], []⟩).2.2 "network down" rfl

/-! ## Date validation and create (claims C1 and C5) -/

theorem validateDates_isOk_iff (startAt endAt : Int)
    (closedAt : Option Int) :
    (validateDates startAt endAt closedAt).isOk = true ↔
      startAt < endAt ∧ ∀ c ∈ closedAt, c < startAt := by
  unfold validateDates
  by_cases h : endAt ≤ startAt
  · simp [h, Except.isOk, Except.toBool, not_lt.mpr h]
  · cases closedAt with
    | none => simp [h, Except.isOk, Except.toBool, lt_of_not_le h]
    | some c =>
      by_cases hc : startAt ≤ c
      · simp [h, hc, Except.isOk, Except.toBool, not_lt.mpr hc]
      · simp [h, hc, Except.isOk, Except.toBool, lt_of_not_le h,
          lt_of_not_le hc]

theorem validateDates_error_badRequest (startAt endAt : Int)
    (closedAt : Option Int)
    (h : ¬(startAt < endAt ∧ ∀ c ∈ closedAt, c < startAt)) :
    ∃ msg, validateDates startAt endAt closedAt =
      .error (.badRequest msg) := by
  by_cases he : endAt ≤ startAt
  · exact ⟨"End date must be after start date",
      by unfold validateDates; simp [he]⟩
  · have hlt : startAt < endAt := lt_of_not_le he
    cases closedAt with
    | none => exact absurd ⟨hlt, by simp⟩ h
    | some c =>
      by_cases hc : startAt ≤ c
      · exact ⟨"Closed date must be before start date",
          by unfold validateDates; simp [he, hc]⟩
      · exact absurd ⟨hlt, by simpa using lt_of_not_le hc⟩ h

/-- Claim C1: create succeeds only when `endAt` is strictly after
`startAt` and `closedAt` is absent or strictly before `startAt`; any
input violating either date condition is rejected with a validation
failure (`BadRequestException`), whatever the rest of the input; and
for inputs that pass the slug and content-language checks, success is
exactly equivalent to the date conditions. -/
theorem create_succeeds_iff_dates_valid (dto : CreateActivityDto)
    (newId : String) (store : Store) :
    ((create dto newId store).2.isOk = true →
      dto.startAt < dto.endAt ∧ ∀ c ∈ dto.closedAt, c < dto.startAt) ∧
    (¬(dto.startAt < dto.endAt ∧ ∀ c ∈ dto.closedAt, c < dto.startAt) →
      ∃ msg, (create dto newId store).2 = .error (.badRequest msg)) ∧
    (checkSlugExists dto.slug store = .ok () →
     validateContentLanguages dto.contents dto.supportedLanguages
        = .ok () →
      ((create dto newId store).2.isOk = true ↔
        dto.startAt < dto.endAt ∧ ∀ c ∈ dto.closedAt, c < dto.startAt)) := by
  refine ⟨?_, ?_, ?_⟩
  · intro hk
    unfold create at hk
    cases hd : validateDates dto.startAt dto.endAt dto.closedAt with
    | error e => rw [hd] at hk; simp [Except.isOk, Except.toBool] at hk
    | ok u =>
      cases u
      rw [← validateDates_isOk_iff]
      rw [hd]
      rfl
  · intro h
    obtain ⟨msg, hmsg⟩ :=
      validateDates_error_badRequest dto.startAt dto.endAt dto.closedAt h
    refine ⟨msg, ?_⟩
    unfold create
    rw [hmsg]
  · intro hslug hlang
    constructor
    · intro hk
      unfold create at hk
      cases hd : validateDates dto.startAt dto.endAt dto.closedAt with
      | error e => rw [hd] at hk; simp [Except.isOk, Except.toBool] at hk
      | ok u =>
        cases u
        rw [← validateDates_isOk_iff, hd]
        rfl
    · intro h
      have hd : validateDates dto.startAt dto.endAt dto.closedAt = .ok () := by
        have := (validateDates_isOk_iff dto.startAt dto.endAt
          dto.closedAt).mpr h
        cases hd : validateDates dto.startAt dto.endAt dto.closedAt with
        | error e =>
          rw [hd] at this; simp [Except.isOk, Except.toBool] at this
        | ok u => cases u; rfl
      unfold create
      rw [hd, hslug, hlang]
      rfl

/-- A store holding one activity, used by several witnesses. -/
def sampleStore : Store :=
  { activities :=
      [{ id := "id1", name := "n", slug := "slug1", startAt := 0,
         endAt := 10, closedAt := some (-5),
         supportedLanguages := ["en"] }],
    contents :=
      [{ activityId := "id1", lang := "en", title := "T",
         description := none },
       { activityId := "id1", lang := "fr", title := "F",
         description := none }] }

/-- A well-formed create input whose slug is free in `sampleStore`. -/
def freshDto : CreateActivityDto :=
  { name := "n2", slug := "slug2", startAt := 0, endAt := 5,
    supportedLanguages := ["en"], closedAt := some (-1),
    contents := [{ lang := "en", title := "t", description := none }] }

/-- Witness for C1: the well-formed input is accepted. -/
theorem create_succeeds_iff_dates_valid_witness :
    (create freshDto "id2" sampleStore).2.isOk = true :=
  ((create_succeeds_iff_dates_valid freshDto "id2" sampleStore).2.2
    rfl rfl).mpr
    ⟨by norm_num [freshDto],
     fun c hc => by simp [freshDto] at hc ⊢; omega⟩

/-- Claim C5: a create whose date checks pass but whose slug is already
taken signals a conflict failure; and every create failure leaves the
store unchanged — all checks run before the single insert. -/
theorem create_slug_conflict_no_partial_write (dto : CreateActivityDto)
    (newId : String) (store : Store) :
    ((validateDates dto.startAt dto.endAt dto.closedAt).isOk = true →
      store.activities.any (fun a => a.slug == dto.slug) = true →
      (create dto newId store).2 = .error (.conflict
        ("Activity with slug \"" ++ dto.slug ++ "\" already exists"))) ∧
    (∀ e, (create dto newId store).2 = .error e →
      (create dto newId store).1 = store) := by
  constructor
  · intro hd hs
    have hd' : validateDates dto.startAt dto.endAt dto.closedAt = .ok () := by
      cases h : validateDates dto.startAt dto.endAt dto.closedAt with
      | error e => rw [h] at hd; simp [Except.isOk, Except.toBool] at hd
      | ok u => cases u; rfl
    unfold create
    rw [hd']
    unfold checkSlugExists
    rw [hs]
    rfl
  · intro e he
    unfold create at he ⊢
    cases hd : validateDates dto.startAt dto.endAt dto.closedAt with
    | error e₀ => rfl
    | ok u =>
      cases u
      cases hs : checkSlugExists dto.slug store with
      | error e₁ => rfl
      | ok u =>
        cases u
        cases hl : validateContentLanguages dto.contents
            dto.supportedLanguages with
        | error e₂ => rfl
        | ok u => cases u; rw [hd, hs, hl] at he; simp at he

/-- Witness for C5: re-creating with an already-taken slug conflicts,
and the failing create leaves the store unchanged. -/
theorem create_slug_conflict_no_partial_write_witness :
    (create { freshDto with slug := "slug1" } "id2" sampleStore).2 =
      .error (.conflict
        ("Activity with slug \"" ++ "slug1" ++ "\" already exists")) ∧
    (create { freshDto with slug := "slug1" } "id2" sampleStore).1 =
      sampleStore := by
  have h := create_slug_conflict_no_partial_write
    { freshDto with slug := "slug1" } "id2" sampleStore
  refine ⟨h.1 rfl rfl, ?_⟩
  exact h.2 _ (h.1 rfl rfl)

/-! ## Public slug lookup (claim C2) -/

/-- Claim C2: `findOneBySlug` with a requested language returns only
contents whose language equals the lowercased request; with no language
it returns exactly the stored contents of the activity whose language
is currently in `supportedLanguages` (contents of removed languages are
dropped); an unknown slug signals not-found. -/
theorem findOneBySlug_language_filtering (store : Store) (slug : String) :
    (store.activities.find? (fun a => a.slug == slug) = none →
      ∀ lang, findOneBySlug store slug lang =
        .error (.notFound "Activity not found")) ∧
    (∀ a, store.activities.find? (fun a => a.slug == slug) = some a →
      (∀ l res, findOneBySlug store slug (some l) = .ok res →
        ∀ c ∈ res.contents, c.lang = l.toLower) ∧
      (∀ res, findOneBySlug store slug none = .ok res →
        ∀ c, c ∈ res.contents ↔ ∃ r, r ∈ store.contents ∧
          r.activityId = a.id ∧ r.lang ∈ a.supportedLanguages ∧
          c = toPublicContent r)) := by
  constructor
  · intro h lang
    unfold findOneBySlug
    rw [h]
  · intro a ha
    constructor
    · intro l res hres c hc
      simp only [findOneBySlug, ha] at hres
      cases hres
      simp only [applySupportedLanguageFilter, List.mem_filter,
        List.mem_map] at hc
      obtain ⟨⟨r, hr, rfl⟩, _⟩ := hc
      simpa [toPublicContent] using hr.2
    · intro res hres c
      simp only [findOneBySlug, ha] at hres
      cases hres
      simp only [applySupportedLanguageFilter, List.mem_filter,
        List.mem_map]
      constructor
      · rintro ⟨⟨r, hr, rfl⟩, hsup⟩
        refine ⟨r, hr.1, by simpa using hr.2, ?_, rfl⟩
        simpa [toPublicContent] using hsup
      · rintro ⟨r, hr, haid, hsup, rfl⟩
        refine ⟨⟨r, ⟨hr, by simpa using haid⟩, rfl⟩, ?_⟩
        simpa [toPublicContent] using hsup

/-- The projection `findOneBySlug sampleStore "slug1" none` computes
to: the stored `fr` row is dropped because `fr` is not in
`supportedLanguages`. -/
def samplePublicResult : PublicActivity :=
  { slug := "slug1", startAt := 0, endAt := 10, closedAt := some (-5),
    supportedLanguages := ["en"],
    contents := [{ lang := "en", title := "T", description := none }] }

/-- Witness for C2 at a concrete store: an unknown slug is not-found,
and the `fr` content row cannot appear in the no-language result
because `fr` was removed from `supportedLanguages`. -/
theorem findOneBySlug_language_filtering_witness :
    findOneBySlug sampleStore "nope" none =
      .error (.notFound "Activity not found") ∧
    (({ lang := "fr", title := "F", description := none } :
        PublicContent) ∈ samplePublicResult.contents → False) := by
  constructor
  · exact (findOneBySlug_language_filtering sampleStore "nope").1 rfl none
  · intro hmem
    have h := ((findOneBySlug_language_filtering sampleStore "slug1").2
      _ rfl).2 samplePublicResult rfl
      { lang := "fr", title := "F", description := none }
    obtain ⟨r, _, _, hsup, hrc⟩ := h.mp hmem
    have hl : r.lang = "fr" := (congrArg PublicContent.lang hrc).symm
    rw [hl] at hsup
    simp [sampleStore] at hsup

/-! ## Update: clearing versus omitting closedAt (claim C3) -/

theorem find?_map_ite_update (l : List Activity) (id : String)
    (a b : Activity)
    (h : l.find? (fun x => x.id == id) = some a) (hid : b.id = a.id) :
    (l.map (fun x => if x.id == id then b else x)).find?
      (fun x => x.id == id) = some b := by
  induction l with
  | nil => simp at h
  | cons y t ih =>
    rw [List.map_cons]
    by_cases hy : (y.id == id) = true
    · simp only [List.find?_cons, hy] at h
      cases h
      have hb : (b.id == id) = true := by rw [hid]; exact hy
      simp only [hy, if_true]
      simp only [List.find?_cons, hb]
    · have hy' : (y.id == id) = false := by simpa using hy
      simp only [List.find?_cons, hy'] at h
      simp only [hy', Bool.false_eq_true, if_false]
      simp only [List.find?_cons, hy']
      exact ih h

theorem update_ok_inv (store : Store) (id : String)
    (dto : UpdateActivityDto) (a : Activity) (st : Store)
    (hfind : store.activities.find? (fun x => x.id == id) = some a)
    (h : update store id dto = .ok st) :
    st.activities = store.activities.map (fun x =>
      if x.id == id then applyActivityUpdate a dto else x) ∧
    st.contents = (match dto.contents with
      | some cts => applyContentUpserts id store.contents cts
      | none => store.contents) := by
  simp only [update, hfind] at h
  split at h
  · cases h
  · split at h
    · cases h
    · split at h
      · cases h
      · cases h
        exact ⟨rfl, rfl⟩

/-- Claim C3: updating with `closedAt` explicitly `null` clears the
stored `closedAt`, while omitting `closedAt` leaves it unchanged; the
two resulting states differ whenever a `closedAt` was stored; and the
merged value used for date re-validation is the supplied `closedAt`
exactly when it is not `undefined`, the existing one otherwise. -/
theorem update_closedAt_clear_vs_omit (store : Store) (id : String)
    (dto : UpdateActivityDto) (a : Activity) (st₁ st₂ : Store)
    (hfind : store.activities.find? (fun x => x.id == id) = some a)
    (h₁ : update store id { dto with closedAt := some none } = .ok st₁)
    (h₂ : update store id { dto with closedAt := none } = .ok st₂) :
    (∃ a₁, st₁.activities.find? (fun x => x.id == id) = some a₁ ∧
      a₁.closedAt = none) ∧
    (∃ a₂, st₂.activities.find? (fun x => x.id == id) = some a₂ ∧
      a₂.closedAt = a.closedAt) ∧
    (a.closedAt.isSome = true → st₁.activities ≠ st₂.activities) ∧
    (∀ v, mergedClosedAt { dto with closedAt := some v } a = v) ∧
    mergedClosedAt { dto with closedAt := none } a = a.closedAt := by
  have e₁ := (update_ok_inv store id _ a st₁ hfind h₁).1
  have e₂ := (update_ok_inv store id _ a st₂ hfind h₂).1
  have f₁ : st₁.activities.find? (fun x => x.id == id) =
      some (applyActivityUpdate a { dto with closedAt := some none }) := by
    rw [e₁]
    exact find?_map_ite_update _ _ _ _ hfind rfl
  have f₂ : st₂.activities.find? (fun x => x.id == id) =
      some (applyActivityUpdate a { dto with closedAt := none }) := by
    rw [e₂]
    exact find?_map_ite_update _ _ _ _ hfind rfl
  refine ⟨⟨_, f₁, rfl⟩, ⟨_, f₂, rfl⟩, ?_, fun v => rfl, rfl⟩
  intro hsome heq
  rw [heq] at f₁
  rw [f₁] at f₂
  have hcl := congrArg Activity.closedAt (Option.some_inj.mp f₂)
  simp only [applyActivityUpdate, mergedClosedAt] at hcl
  rw [← hcl] at hsome
  simp at hsome

/-- An update input with every field omitted. -/
def emptyUpdate : UpdateActivityDto :=
  { name := none, slug := none, startAt := none, endAt := none,
    supportedLanguages := none, closedAt := none, contents := none }

/-- `sampleStore` after clearing the activity's `closedAt`. -/
def sampleStoreCleared : Store :=
  { activities :=
      [{ id := "id1", name := "n", slug := "slug1", startAt := 0,
         endAt := 10, closedAt := none,
         supportedLanguages := ["en"] }],
    contents := sampleStore.contents }

/-- Witness for C3 at a concrete store and update payload. -/
theorem update_closedAt_clear_vs_omit_witness :
    (∃ a₁, sampleStoreCleared.activities.find?
        (fun x => x.id == "id1") = some a₁ ∧ a₁.closedAt = none) ∧
    (∃ a₂, sampleStore.activities.find?
        (fun x => x.id == "id1") = some a₂ ∧
      a₂.closedAt = (sampleStore.activities.headD
        { id := "", name := "", slug := "", startAt := 0, endAt := 0,
          closedAt := none, supportedLanguages := [] }).closedAt) ∧
    ((sampleStore.activities.headD
        { id := "", name := "", slug := "", startAt := 0, endAt := 0,
          closedAt := none,
          supportedLanguages := [] }).closedAt.isSome = true →
      sampleStoreCleared.activities ≠ sampleStore.activities) ∧
    (∀ v, mergedClosedAt { emptyUpdate with closedAt := some v }
      (sampleStore.activities.headD
        { id := "", name := "", slug := "", startAt := 0, endAt := 0,
          closedAt := none, supportedLanguages := [] }) = v) ∧
    mergedClosedAt { emptyUpdate with closedAt := none }
      (sampleStore.activities.headD
        { id := "", name := "", slug := "", startAt := 0, endAt := 0,
          closedAt := none, supportedLanguages := [] }) =
      (sampleStore.activities.headD
        { id := "", name := "", slug := "", startAt := 0, endAt := 0,
          closedAt := none,
          supportedLanguages := [] }).closedAt :=
  update_closedAt_clear_vs_omit sampleStore "id1" emptyUpdate
    (sampleStore.activities.headD
      { id := "", name := "", slug := "", startAt := 0, endAt := 0,
        closedAt := none, supportedLanguages := [] })
    sampleStoreCleared sampleStore rfl rfl rfl

/-! ## Content-language validation (claim C4) -/

theorem indexOf_le_of_getElem? (l : List String) (i : Nat) (x : String)
    (h : l[i]? = some x) : l.indexOf x ≤ i := by
  induction l generalizing i with
  | nil => simp at h
  | cons a t ih =>
    cases i with
    | zero =>
      simp only [List.getElem?_cons_zero, Option.some_inj] at h
      subst h
      simp [List.indexOf_cons_self]
    | succ n =>
      simp only [List.getElem?_cons_succ] at h
      by_cases ha : a = x
      · subst ha
        simp [List.indexOf_cons_self]
      · rw [List.indexOf_cons_ne _ (by simpa using ha)]
        exact Nat.succ_le_succ (ih n h)

theorem duplicate_of_getElem?_pair (l : List String) (j i : Nat)
    (x : String) (hji : j < i) (hj : l[j]? = some x)
    (hi : l[i]? = some x) : List.Duplicate x l := by
  induction l generalizing j i with
  | nil => simp at hj
  | cons a t ih =>
    cases j with
    | zero =>
      simp only [List.getElem?_cons_zero, Option.some_inj] at hj
      subst hj
      cases i with
      | zero => exact absurd hji (by simp)
      | succ n =>
        simp only [List.getElem?_cons_succ] at hi
        exact List.Duplicate.cons_mem (by
          have := List.getElem?_eq_some.mp hi
          obtain ⟨hlt, he⟩ := this
          exact he ▸ List.getElem_mem hlt)
    | succ m =>
      cases i with
      | zero => exact absurd hji (by omega)
      | succ n =>
        simp only [List.getElem?_cons_succ] at hj hi
        exact (ih m n (by omega) hj hi).cons_duplicate

theorem exists_pair_of_duplicate (l : List String) (x : String)
    (h : List.Duplicate x l) :
    ∃ j i : Nat, j < i ∧ l[j]? = some x ∧ l[i]? = some x := by
  induction h with
  | cons_mem hm =>
    next t =>
    obtain ⟨k, hk⟩ := (List.mem_iff_getElem?).mp hm
    exact ⟨0, k + 1, Nat.succ_pos k, by simp, by simpa using hk⟩
  | cons_duplicate hd ih =>
    obtain ⟨j, i, hji, hj, hi⟩ := ih
    exact ⟨j + 1, i + 1, by omega, by simpa using hj, by simpa using hi⟩

theorem mem_duplicateLangs_iff_exists (l : List String) (x : String) :
    x ∈ duplicateLangs l ↔ ∃ i, l[i]? = some x ∧ l.indexOf x ≠ i := by
  unfold duplicateLangs
  constructor
  · intro h
    simp only [List.mem_map, List.mem_filter] at h
    obtain ⟨p, ⟨hp, hne⟩, rfl⟩ := h
    refine ⟨p.1, ?_, by simpa using hne⟩
    exact List.mem_enum_iff_getElem?.mp hp
  · rintro ⟨i, hi, hne⟩
    simp only [List.mem_map, List.mem_filter]
    exact ⟨(i, x), ⟨List.mk_mem_enum_iff_getElem?.mpr hi,
      by simpa using hne⟩, rfl⟩

theorem mem_duplicateLangs_iff_two_le_count (l : List String)
    (x : String) : x ∈ duplicateLangs l ↔ 2 ≤ l.count x := by
  rw [mem_duplicateLangs_iff_exists, ← List.duplicate_iff_two_le_count]
  constructor
  · rintro ⟨i, hi, hne⟩
    have hmem : x ∈ l := by
      have := List.getElem?_eq_some.mp hi
      obtain ⟨hlt, he⟩ := this
      exact he ▸ List.getElem_mem hlt
    have hle : l.indexOf x ≤ i := indexOf_le_of_getElem? l i x hi
    have hlt : l.indexOf x < i := lt_of_le_of_ne hle hne
    have hj : l[l.indexOf x]? = some x := by
      rw [← List.get?_eq_getElem?]
      exact List.indexOf_get? hmem
    exact duplicate_of_getElem?_pair l (l.indexOf x) i x hlt hj hi
  · intro hd
    obtain ⟨j, i, hji, hj, hi⟩ := exists_pair_of_duplicate l x hd
    refine ⟨i, hi, ?_⟩
    have : l.indexOf x ≤ j := indexOf_le_of_getElem? l j x hj
    omega

theorem duplicateLangs_eq_nil_iff_nodup (l : List String) :
    duplicateLangs l = [] ↔ l.Nodup := by
  rw [List.eq_nil_iff_forall_not_mem, List.nodup_iff_count_le_one]
  constructor
  · intro h a
    by_contra hc
    exact h a ((mem_duplicateLangs_iff_two_le_count l a).mpr (by omega))
  · intro h a ha
    have := (mem_duplicateLangs_iff_two_le_count l a).mp ha
    have := h a
    omega

theorem unsupportedLangs_eq_nil_iff (langs supported : List String) :
    unsupportedLangs langs supported = [] ↔
      ∀ lang ∈ langs, lang ∈ supported := by
  unfold unsupportedLangs
  rw [List.filter_eq_nil_iff]
  constructor
  · intro h lang hl
    have := h lang hl
    simpa using this
  · intro h lang hl
    simpa using h lang hl

theorem mem_unsupportedLangs_iff (langs supported : List String)
    (lang : String) :
    lang ∈ unsupportedLangs langs supported ↔
      lang ∈ langs ∧ lang ∉ supported := by
  unfold unsupportedLangs
  rw [List.mem_filter]
  simp

theorem validateContentLanguages_ok_iff
    (contents : List ActivityContentDto) (supported : List String) :
    (validateContentLanguages contents supported).isOk = true ↔
      (∀ c ∈ contents, c.lang ∈ supported) ∧
        (contents.map (fun c => c.lang)).Nodup := by
  unfold validateContentLanguages
  by_cases hu : unsupportedLangs (contents.map (fun c => c.lang))
      supported = []
  · by_cases hd : duplicateLangs (contents.map (fun c => c.lang)) = []
    · simp only [hu, hd, ne_eq, not_true_eq_false, if_false, if_neg,
        not_false_iff]
      constructor
      · intro _
        refine ⟨?_, (duplicateLangs_eq_nil_iff_nodup _).mp hd⟩
        intro c hc
        exact ((unsupportedLangs_eq_nil_iff _ supported).mp hu) c.lang
          (List.mem_map_of_mem _ hc)
      · intro _
        rfl
    · simp only [hu, hd, ne_eq, not_true_eq_false, if_false,
        not_false_iff, if_true]
      constructor
      · intro h
        simp [Except.isOk, Except.toBool] at h
      · rintro ⟨-, hnd⟩
        exact absurd ((duplicateLangs_eq_nil_iff_nodup _).mpr hnd) hd
  · simp only [hu, ne_eq, not_false_iff, if_true]
    constructor
    · intro h
      simp [Except.isOk, Except.toBool] at h
    · rintro ⟨hall, -⟩
      refine absurd ((unsupportedLangs_eq_nil_iff _ supported).mpr ?_)
        hu
      intro lang hl
      obtain ⟨c, hc, rfl⟩ := List.mem_map.mp hl
      exact hall c hc

/-- Claim C4: content-language validation rejects exactly when some
content's lang is outside `supportedLanguages` or some lang repeats in
the list, and accepts otherwise; the unsupported-language rejection
names exactly the unsupported languages, and the duplicate rejection
names the duplicated language(s) — membership in the named lists is
characterized precisely. -/
theorem validateContentLanguages_spec
    (contents : List ActivityContentDto) (supported : List String) :
    ((validateContentLanguages contents supported).isOk = true ↔
      (∀ c ∈ contents, c.lang ∈ supported) ∧
        (contents.map (fun c => c.lang)).Nodup) ∧
    (unsupportedLangs (contents.map (fun c => c.lang)) supported ≠ [] →
      validateContentLanguages contents supported = .error (.badRequest
        ("Contents contain unsupported languages: " ++
          String.intercalate ", "
            (unsupportedLangs (contents.map (fun c => c.lang))
              supported)))) ∧
    (unsupportedLangs (contents.map (fun c => c.lang)) supported = [] →
     duplicateLangs (contents.map (fun c => c.lang)) ≠ [] →
      validateContentLanguages contents supported = .error (.badRequest
        ("Duplicate languages in contents: " ++
          String.intercalate ", "
            (duplicateLangs (contents.map (fun c => c.lang)))))) ∧
    (∀ lang, lang ∈ unsupportedLangs (contents.map (fun c => c.lang))
        supported ↔
      lang ∈ contents.map (fun c => c.lang) ∧ lang ∉ supported) ∧
    (∀ lang, lang ∈ duplicateLangs (contents.map (fun c => c.lang)) ↔
      2 ≤ (contents.map (fun c => c.lang)).count lang) := by
  refine ⟨validateContentLanguages_ok_iff contents supported, ?_, ?_,
    mem_unsupportedLangs_iff _ supported,
    mem_duplicateLangs_iff_two_le_count _⟩
  · intro hu
    unfold validateContentLanguages
    simp only [hu, ne_eq, not_false_iff, if_true]
  · intro hu hd
    unfold validateContentLanguages
    simp only [hu, hd, ne_eq, not_true_eq_false, if_false,
      not_false_iff, if_true]

/-- Witness for C4 at concrete content lists: an unsupported language
and a duplicated language are each rejected with the naming message,
and a clean list is accepted. -/
theorem validateContentLanguages_spec_witness :
    validateContentLanguages
      [{ lang := "en-us", title := "a", description := none },
       { lang := "fr-fr", title := "b", description := none }]
      ["en-us", "zh-tw"] = .error (.badRequest
        ("Contents contain unsupported languages: " ++
          String.intercalate ", " ["fr-fr"])) ∧
    validateContentLanguages
      [{ lang := "en-us", title := "a", description := none },
       { lang := "en-us", title := "b", description := none }]
      ["en-us", "zh-tw"] = .error (.badRequest
        ("Duplicate languages in contents: " ++
          String.intercalate ", " ["en-us"])) ∧
    (validateContentLanguages
      [{ lang := "en-us", title := "a", description := none }]
      ["en-us", "zh-tw"]).isOk = true := by
  refine ⟨?_, ?_, ?_⟩
  · exact (validateContentLanguages_spec
      [{ lang := "en-us", title := "a", description := none },
       { lang := "fr-fr", title := "b", description := none }]
      ["en-us", "zh-tw"]).2.1 (by decide)
  · exact (validateContentLanguages_spec
      [{ lang := "en-us", title := "a", description := none },
       { lang := "en-us", title := "b", description := none }]
      ["en-us", "zh-tw"]).2.2.1 (by decide) (by decide)
  · exact ((validateContentLanguages_spec
      [{ lang := "en-us", title := "a", description := none }]
      ["en-us", "zh-tw"]).1).mpr (by decide)

/-! ## Content upsert idempotence (claim C9) -/

/-- The stored rows agree with a content payload: every row keyed on
`(aid, c.lang)` already carries the payload's title, and its
description whenever one is supplied. -/
def RowsAgree (aid : String) (c : ActivityContentDto)
    (rows : List ContentRow) : Prop :=
  ∀ r ∈ rows, (r.activityId == aid && r.lang == c.lang) = true →
    r.title = c.title ∧
      ∀ d, c.description = some d → r.description = some d

theorem any_key_upsertContent_self (aid : String)
    (rows : List ContentRow) (c : ActivityContentDto) :
    (upsertContent aid rows c).any
      (fun r => r.activityId == aid && r.lang == c.lang) = true := by
  unfold upsertContent
  split
  · next h =>
    rw [List.any_eq_true] at h ⊢
    obtain ⟨r, hr, hcond⟩ := h
    refine ⟨if (r.activityId == aid && r.lang == c.lang) = true then
      { r with title := c.title,
               description := match c.description with
                 | some d => some d
                 | none => r.description } else r, ?_, ?_⟩
    · exact List.mem_map_of_mem _ hr
    · simp [hcond]
  · rw [List.any_eq_true]
    refine ⟨_, List.mem_append_right _ (List.mem_singleton_self _), ?_⟩
    simp

theorem any_key_upsertContent_mono (aid a l : String)
    (rows : List ContentRow) (c : ActivityContentDto)
    (h : rows.any (fun r => r.activityId == a && r.lang == l) = true) :
    (upsertContent aid rows c).any
      (fun r => r.activityId == a && r.lang == l) = true := by
  unfold upsertContent
  split
  · rw [List.any_eq_true] at h ⊢
    obtain ⟨r, hr, hcond⟩ := h
    refine ⟨if (r.activityId == aid && r.lang == c.lang) = true then
      { r with title := c.title,
               description := match c.description with
                 | some d => some d
                 | none => r.description } else r,
      List.mem_map_of_mem _ hr, ?_⟩
    split
    · simpa using hcond
    · simpa using hcond
  · rw [List.any_append, h, Bool.true_or]

theorem any_key_applyContentUpserts_mono (aid a l : String)
    (cts : List ActivityContentDto) (rows : List ContentRow)
    (h : rows.any (fun r => r.activityId == a && r.lang == l) = true) :
    (applyContentUpserts aid rows cts).any
      (fun r => r.activityId == a && r.lang == l) = true := by
  induction cts generalizing rows with
  | nil => exact h
  | cons x t ih =>
    exact ih _ (any_key_upsertContent_mono aid a l rows x h)

theorem any_key_applyContentUpserts (aid : String)
    (cts : List ActivityContentDto) (rows : List ContentRow)
    (c : ActivityContentDto) (hc : c ∈ cts) :
    (applyContentUpserts aid rows cts).any
      (fun r => r.activityId == aid && r.lang == c.lang) = true := by
  induction cts generalizing rows with
  | nil => cases hc
  | cons x t ih =>
    simp only [applyContentUpserts, List.foldl_cons] at ih ⊢
    rcases List.mem_cons.mp hc with rfl | hct
    · exact any_key_applyContentUpserts_mono aid aid c.lang t _
        (any_key_upsertContent_self aid rows c)
    · exact ih _ hct

theorem rowsAgree_upsertContent_self (aid : String)
    (rows : List ContentRow) (c : ActivityContentDto) :
    RowsAgree aid c (upsertContent aid rows c) := by
  unfold upsertContent RowsAgree
  split
  · next hany =>
    intro r hr hcond
    obtain ⟨r₀, hr₀, rfl⟩ := List.mem_map.mp hr
    by_cases h₀ : (r₀.activityId == aid && r₀.lang == c.lang) = true
    · rw [if_pos h₀]
      refine ⟨rfl, fun d hd => ?_⟩
      rw [hd]
    · rw [if_neg h₀] at hcond ⊢
      exact absurd hcond h₀
  · next hany =>
    intro r hr hcond
    rcases List.mem_append.mp hr with hrl | hrr
    · exact absurd (List.any_eq_true.mpr ⟨r, hrl, hcond⟩) hany
    · rw [List.mem_singleton.mp hrr]
      exact ⟨rfl, fun d hd => by rw [hd]⟩

theorem rowsAgree_upsertContent_of_ne (aid : String)
    (rows : List ContentRow) (c c' : ActivityContentDto)
    (hne : c'.lang ≠ c.lang) (h : RowsAgree aid c rows) :
    RowsAgree aid c (upsertContent aid rows c') := by
  unfold upsertContent
  split
  · intro r hr hcond
    obtain ⟨r₀, hr₀, rfl⟩ := List.mem_map.mp hr
    by_cases h₀ : (r₀.activityId == aid && r₀.lang == c'.lang) = true
    · exfalso
      rw [if_pos h₀] at hcond
      simp only [Bool.and_eq_true, beq_iff_eq] at h₀ hcond
      exact hne (h₀.2.symm.trans hcond.2)
    · rw [if_neg h₀] at hcond ⊢
      exact h r₀ hr₀ hcond
  · intro r hr hcond
    rcases List.mem_append.mp hr with hrl | hrr
    · exact h r hrl hcond
    · exfalso
      rw [List.mem_singleton.mp hrr] at hcond
      simp only [Bool.and_eq_true, beq_iff_eq] at hcond
      exact hne hcond.2

theorem rowsAgree_applyContentUpserts_of_not_mem (aid : String)
    (cts : List ActivityContentDto) (rows : List ContentRow)
    (c : ActivityContentDto)
    (hnm : c.lang ∉ cts.map (fun x => x.lang))
    (h : RowsAgree aid c rows) :
    RowsAgree aid c (applyContentUpserts aid rows cts) := by
  induction cts generalizing rows with
  | nil => exact h
  | cons x t ih =>
    simp only [List.map_cons, List.mem_cons, not_or] at hnm
    simp only [applyContentUpserts, List.foldl_cons] at ih ⊢
    exact ih _ hnm.2 (rowsAgree_upsertContent_of_ne aid rows c x
      (fun he => hnm.1 (he ▸ rfl)) h)

theorem rowsAgree_applyContentUpserts (aid : String)
    (cts : List ActivityContentDto) (rows : List ContentRow)
    (c : ActivityContentDto) (hc : c ∈ cts)
    (hnd : (cts.map (fun x => x.lang)).Nodup) :
    RowsAgree aid c (applyContentUpserts aid rows cts) := by
  induction cts generalizing rows with
  | nil => cases hc
  | cons x t ih =>
    simp only [List.map_cons, List.nodup_cons] at hnd
    simp only [applyContentUpserts, List.foldl_cons] at ih ⊢
    rcases List.mem_cons.mp hc with rfl | hct
    · exact rowsAgree_applyContentUpserts_of_not_mem aid t _ c hnd.1
        (rowsAgree_upsertContent_self aid rows c)
    · exact ih _ hct hnd.2

theorem upsertContent_eq_self (aid : String) (rows : List ContentRow)
    (c : ActivityContentDto)
    (hp : rows.any (fun r => r.activityId == aid && r.lang == c.lang)
      = true)
    (h : RowsAgree aid c rows) : upsertContent aid rows c = rows := by
  unfold upsertContent
  rw [if_pos hp]
  have : ∀ r ∈ rows, (if (r.activityId == aid && r.lang == c.lang)
      = true then
        ({ r with title := c.title,
                  description := match c.description with
                    | some d => some d
                    | none => r.description } : ContentRow)
      else r) = r := by
    intro r hr
    by_cases hcond : (r.activityId == aid && r.lang == c.lang) = true
    · rw [if_pos hcond]
      obtain ⟨ht, hd⟩ := h r hr hcond
      cases hdesc : c.description with
      | none =>
        show ({ r with title := c.title,
                       description := r.description } : ContentRow) = r
        rw [← ht]
      | some d =>
        show ({ r with title := c.title,
                       description := some d } : ContentRow) = r
        rw [← ht, ← hd d hdesc]
    · rw [if_neg hcond]
  rw [List.map_congr_left this]
  exact List.map_id rows

theorem applyContentUpserts_eq_self (aid : String)
    (cts : List ActivityContentDto) (rows : List ContentRow)
    (h : ∀ c ∈ cts, upsertContent aid rows c = rows) :
    applyContentUpserts aid rows cts = rows := by
  induction cts with
  | nil => rfl
  | cons x t ih =>
    simp only [applyContentUpserts, List.foldl_cons] at ih ⊢
    rw [h x (List.mem_cons_self x t)]
    exact ih (fun c hc => h c (List.mem_cons_of_mem x hc))

theorem applyContentUpserts_idem (aid : String)
    (rows : List ContentRow) (cts : List ActivityContentDto)
    (hnd : (cts.map (fun x => x.lang)).Nodup) :
    applyContentUpserts aid (applyContentUpserts aid rows cts) cts =
      applyContentUpserts aid rows cts := by
  apply applyContentUpserts_eq_self
  intro c hc
  exact upsertContent_eq_self aid _ c
    (any_key_applyContentUpserts aid cts rows c hc)
    (rowsAgree_applyContentUpserts aid cts rows c hc hnd)

theorem update_ok_find (store : Store) (id : String)
    (dto : UpdateActivityDto) (st : Store)
    (h : update store id dto = .ok st) :
    ∃ a, store.activities.find? (fun x => x.id == id) = some a := by
  unfold update at h
  cases hf : store.activities.find? (fun x => x.id == id) with
  | none => rw [hf] at h; simp at h
  | some a => exact ⟨a, rfl⟩

theorem update_ok_valid_contents (store : Store) (id : String)
    (dto : UpdateActivityDto) (a : Activity)
    (cts : List ActivityContentDto) (st : Store)
    (hfind : store.activities.find? (fun x => x.id == id) = some a)
    (hc : dto.contents = some cts)
    (h : update store id dto = .ok st) :
    validateContentLanguages cts
      (dto.supportedLanguages.getD a.supportedLanguages) = .ok () := by
  simp only [update, hfind] at h
  split at h
  · cases h
  · split at h
    · cases h
    · split at h
      · cases h
      · next hval =>
        rw [hc] at hval
        exact hval

/-- Claim C9: when an update payload carries a contents list that
passes validation, running the update twice from the same payload
leaves the same stored content rows as running it once — the keyed
upsert updates instead of inserting a duplicate. -/
theorem update_contents_idempotent (store : Store) (id : String)
    (dto : UpdateActivityDto) (cts : List ActivityContentDto)
    (st₁ st₂ : Store)
    (hc : dto.contents = some cts)
    (h₁ : update store id dto = .ok st₁)
    (h₂ : update st₁ id dto = .ok st₂) :
    st₂.contents = st₁.contents := by
  obtain ⟨a, hfind⟩ := update_ok_find store id dto st₁ h₁
  have hval := update_ok_valid_contents store id dto a cts st₁ hfind
    hc h₁
  have hnd : (cts.map (fun x => x.lang)).Nodup := by
    have hok : (validateContentLanguages cts
        (dto.supportedLanguages.getD a.supportedLanguages)).isOk
          = true := by
      rw [hval]; rfl
    exact ((validateContentLanguages_ok_iff cts _).mp hok).2
  obtain ⟨hact₁, hcont₁⟩ := update_ok_inv store id dto a st₁ hfind h₁
  have hfind₁ : st₁.activities.find? (fun x => x.id == id) =
      some (applyActivityUpdate a dto) := by
    rw [hact₁]
    exact find?_map_ite_update _ _ _ _ hfind rfl
  obtain ⟨hact₂, hcont₂⟩ := update_ok_inv st₁ id dto
    (applyActivityUpdate a dto) st₂ hfind₁ h₂
  have hcont₁' : st₁.contents =
      applyContentUpserts id store.contents cts := by
    rw [hcont₁, hc]
  have hcont₂' : st₂.contents =
      applyContentUpserts id st₁.contents cts := by
    rw [hcont₂, hc]
  rw [hcont₂', hcont₁']
  exact applyContentUpserts_idem id store.contents cts hnd

/-- The C9 witness payload: update only the `en` content's title. -/
def upsertDto : UpdateActivityDto :=
  { emptyUpdate with
    contents := some [{ lang := "en", title := "T2",
                        description := none }] }

/-- `sampleStore` after applying `upsertDto` (once or twice). -/
def sampleStoreUpd : Store :=
  { activities := sampleStore.activities,
    contents := [{ activityId := "id1", lang := "en", title := "T2",
                   description := none },
                 { activityId := "id1", lang := "fr", title := "F",
                   description := none }] }

/-- Witness for C9 at a concrete store and payload: the second run of
the same upsert payload reproduces the rows of the first run. -/
theorem update_contents_idempotent_witness :
    sampleStoreUpd.contents = sampleStoreUpd.contents :=
  update_contents_idempotent sampleStore "id1" upsertDto
    [{ lang := "en", title := "T2", description := none }]
    sampleStoreUpd sampleStoreUpd rfl rfl rfl

end JsdcCfp
